import Mathlib

/-!
Shallow embedding of the ScaleAI GraphRAG dashboard client
(`Frontend/app.js`): the graph state synchronization and highlight
engine.  The renderer-facing vis.js datasets are modelled as lists of
records keyed by `id`; the mutable module-level state (datasets,
highlight sets, selection) is an explicit `AppState` record, and each
JS function that mutates the globals becomes a state-passing Lean
function.  JS `Set`s are modelled as duplicate-free lists built with
`setAdd` / `List.erase`, which preserves insertion order exactly as a
JS `Set` does.
-/

namespace GraphRAG

/-- Raw domain node as delivered by the backend (`/api/graph/export`,
traversal and query responses).  `ntype` mirrors `node.type`
(`"FIELD"` or `"CONCEPT"`), `tier` mirrors `node.tier` where `none`
stands for a JS `undefined` tier, and `label` is the optional display
label (`none` for `undefined`). -/
structure RawNode where
  id : String
  label : Option String
  ntype : Option String
  tier : Option Int
  deriving DecidableEq, Repr

/-- Raw directed edge as delivered by the backend: `edge.source`,
`edge.target`, optional relation kind `edge.type`. -/
structure RawEdge where
  source : String
  target : String
  etype : Option String
  deriving DecidableEq, Repr

/-- `TIER_COLORS` lookup: `TIER_COLORS[tier] || TIER_COLORS['-1']`.
Tiers 0..5 have fixed palette entries; every other index falls back to
the concept color `'#06b6d4'`. -/
def TIER_COLORS (tier : Int) : String :=
  if tier = 0 then "#9333ea"
  else if tier = 1 then "#22c55e"
  else if tier = 2 then "#3b82f6"
  else if tier = 3 then "#f59e0b"
  else if tier = 4 then "#ef4444"
  else if tier = 5 then "#ec4899"
  else "#06b6d4"

def HIGHLIGHT_COLOR : String := "#fbbf24"

/-- `NODE_SHAPES[node.type] || 'dot'`. -/
def nodeShape (ntype : Option String) : String :=
  if ntype = some "CONCEPT" then "diamond" else "dot"

/-- `getNodeColor(node)`: `const tier = node.tier !== undefined ?
node.tier : -1; return TIER_COLORS[tier] || TIER_COLORS['-1'];` -/
def getNodeColor (node : RawNode) : String :=
  TIER_COLORS (node.tier.getD (-1))

/-- `getNodeSize(node)`: concepts are size 18; fields are
`12 + Math.max(0, (4 - tier)) * 1.5` with tier defaulting to 1 when
`undefined`. -/
def getNodeSize (node : RawNode) : ℚ :=
  if node.ntype = some "CONCEPT" then 18
  else
    let tier : Int := node.tier.getD 1
    12 + ((max 0 (4 - tier) : Int) : ℚ) * (3 / 2)

/-- `truncateLabel(label, maxLength = 20)`; the empty string is falsy
in JS, so it also yields `'...'`. -/
def truncateLabel (label : String) : String :=
  if label = "" then "..."
  else if label.length ≤ 20 then label
  else (label.take 20) ++ "..."

/-- `node.label || node.id`: the label used for a vis node, falling
back to the id when the label is absent or empty. -/
def labelOrId (node : RawNode) : String :=
  match node.label with
  | some l => if l = "" then node.id else l
  | none => node.id

/-- A node record held in the vis.js `nodesDataset`, as prepared by
`initializeNetwork` / `addNodeToGraph`.  The `font` object is split
into its two fields; `hidden` is absent at creation (JS `undefined`,
i.e. visible), modelled as `false`. -/
structure VisNode where
  id : String
  label : String
  color : String
  shape : String
  size : ℚ
  fontColor : String
  fontSize : ℚ
  tier : Option Int
  ntype : Option String
  originalColor : String
  data : RawNode
  hidden : Bool
  deriving DecidableEq, Repr

/-- An edge record held in the vis.js `edgesDataset`.  `from_` / `to_`
mirror the JS `from` / `to` fields (`from` is a Lean keyword); the
`color` object is split into its `color` and `opacity` fields. -/
structure VisEdge where
  id : String
  from_ : String
  to_ : String
  colorColor : String
  colorOpacity : ℚ
  width : ℚ
  etype : Option String
  deriving DecidableEq, Repr

/-- The module-level mutable state of `app.js`: the two vis datasets,
the two highlight `Set`s and the current selection.  The highlight
sets are duplicate-free lists in insertion order (JS `Set`
semantics). -/
structure AppState where
  nodesDataset : List VisNode
  edgesDataset : List VisEdge
  highlightedNodes : List String
  highlightedEdges : List String
  selectedNodeId : Option String
  deriving DecidableEq, Repr

/-- `Set.add`: append the element unless already present (JS `Set`
insertion order). -/
def setAdd (l : List String) (x : String) : List String :=
  if x ∈ l then l else l ++ [x]

/-- The vis node `initializeNetwork` builds from a raw export node
(id, truncated label, tier color, shape from type, size from
category/tier, font, `originalColor` snapshot and the `data`
back-reference). -/
def mkVisNode (node : RawNode) : VisNode :=
  { id := node.id
    label := truncateLabel (labelOrId node)
    color := getNodeColor node
    shape := nodeShape node.ntype
    size := getNodeSize node
    fontColor := "#e4e6eb"
    fontSize := 10
    tier := node.tier
    ntype := node.ntype
    originalColor := getNodeColor node
    data := node
    hidden := false }

/-- The vis edge `initializeNetwork` builds for the bulk-load edge at
index `idx`: identifier `edge-${idx}`, base color `'#30363d'` with
opacity 0.6 and width 1. -/
def mkVisEdge (idx : Nat) (edge : RawEdge) : VisEdge :=
  { id := "edge-" ++ toString idx
    from_ := edge.source
    to_ := edge.target
    colorColor := "#30363d"
    colorOpacity := 6 / 10
    width := 1
    etype := edge.etype }

/-- `initializeNetwork` run at startup on the export payload: it
creates fresh datasets from `allNodes` / `allEdges`; the module-level
highlight sets and selection start out empty. -/
def initializeNetwork (nodes : List RawNode) (edges : List RawEdge) : AppState :=
  { nodesDataset := nodes.map mkVisNode
    edgesDataset := edges.enum.map (fun p => mkVisEdge p.1 p.2)
    highlightedNodes := []
    highlightedEdges := []
    selectedNodeId := none }

/-- `highlightNode(nodeId, isHighlighted)`.  The true branch adds the
id to `highlightedNodes` and pushes the highlight visual (color
`HIGHLIGHT_COLOR`, size 25, font 14 black); the false branch removes
the id and, when the node is present, restores
`node.originalColor` and `getNodeSize(node.data)` with the base font.
`nodesDataset.update` at these call sites always targets an id that
is present, so the update is modelled as an in-place rewrite of the
matching record. -/
def highlightNode (s : AppState) (nodeId : String) (isHighlighted : Bool) : AppState :=
  if isHighlighted then
    { s with
      highlightedNodes := setAdd s.highlightedNodes nodeId
      nodesDataset := s.nodesDataset.map (fun n =>
        if n.id = nodeId then
          { n with color := HIGHLIGHT_COLOR, size := 25,
                   fontSize := 14, fontColor := "#000" }
        else n) }
  else
    { s with
      highlightedNodes := s.highlightedNodes.erase nodeId
      nodesDataset := s.nodesDataset.map (fun n =>
        if n.id = nodeId then
          { n with color := n.originalColor, size := getNodeSize n.data,
                   fontSize := 10, fontColor := "#e4e6eb" }
        else n) }

/-- `clearHighlights()`: every currently highlighted node is restored
via `highlightNode(id, false)`, every highlighted edge is reset to the
base edge style, and both sets are emptied.  Each restore touches only
the record with the given id, so iterating the set is equivalent to
one pass over the datasets. -/
def clearHighlights (s : AppState) : AppState :=
  { s with
    nodesDataset := s.nodesDataset.map (fun n =>
      if n.id ∈ s.highlightedNodes then
        { n with color := n.originalColor, size := getNodeSize n.data,
                 fontSize := 10, fontColor := "#e4e6eb" }
      else n)
    edgesDataset := s.edgesDataset.map (fun e =>
      if e.id ∈ s.highlightedEdges then
        { e with colorColor := "#30363d", colorOpacity := 6 / 10, width := 1 }
      else e)
    highlightedNodes := []
    highlightedEdges := [] }

/-- `addNodeToGraph(nodeData, highlight)`: no-op when the id is
already in the dataset; otherwise append the new vis node (highlight
visual when `highlight` is set) and add the id to `highlightedNodes`
when highlighted. -/
def addNodeToGraph (s : AppState) (nodeData : RawNode) (highlight : Bool) : AppState :=
  if s.nodesDataset.any (fun n => n.id == nodeData.id) then s
  else
    { s with
      nodesDataset := s.nodesDataset ++
        [{ id := nodeData.id
           label := truncateLabel (labelOrId nodeData)
           color := if highlight then HIGHLIGHT_COLOR else getNodeColor nodeData
           shape := nodeShape nodeData.ntype
           size := if highlight then 25 else getNodeSize nodeData
           fontColor := if highlight then "#000" else "#e4e6eb"
           fontSize := if highlight then 14 else 10
           tier := nodeData.tier
           ntype := nodeData.ntype
           originalColor := getNodeColor nodeData
           data := nodeData
           hidden := false }]
      highlightedNodes :=
        if highlight then setAdd s.highlightedNodes nodeData.id
        else s.highlightedNodes }

/-- ASCII lower-casing of one character: kernel-computable model of
the JS `toLowerCase` used by the dashboard (node ids and labels are
ASCII). -/
def lowerChar (c : Char) : Char :=
  if 65 ≤ c.toNat ∧ c.toNat ≤ 90 then Char.ofNat (c.toNat + 32) else c

/-- Model of `String.prototype.toLowerCase`. -/
def strLower (s : String) : String :=
  ⟨s.data.map lowerChar⟩

/-- Whitespace test backing the model of `String.prototype.trim`. -/
def isWsChar (c : Char) : Bool :=
  c = ' ' || c = '\t' || c = '\n' || c = '\r'

/-- Model of `String.prototype.trim`: drop leading and trailing
whitespace. -/
def strTrim (s : String) : String :=
  ⟨((s.data.dropWhile isWsChar).reverse.dropWhile isWsChar).reverse⟩

/-- Fuelled worker for the model of `String.prototype.split` with a
non-empty separator; the fuel (the input length) dominates the number
of steps, so the fuel-exhausted arm is never reached on the intended
calls. -/
def splitOnAux (sep : List Char) : Nat → List Char → List Char → List (List Char)
  | 0, acc, rest => [acc.reverse ++ rest]
  | _ + 1, acc, [] => [acc.reverse]
  | fuel + 1, acc, c :: rest =>
    if sep.isPrefixOf (c :: rest) then
      acc.reverse :: splitOnAux sep fuel [] ((c :: rest).drop sep.length)
    else splitOnAux sep fuel (c :: acc) rest

/-- Model of `value.split(sep)` (JS semantics: splitting the empty
string yields `[""]`, a trailing separator yields a trailing empty
part). -/
def strSplitOn (s sep : String) : List String :=
  (splitOnAux sep.data s.data.length [] s.data).map (fun cs => ⟨cs⟩)

/-- One entry of `result.sources`: `{type, value}`. -/
structure Source where
  stype : String
  value : String
  deriving DecidableEq, Repr

/-- `result.context_debug`: target node plus upstream / downstream
node lists.  An absent list behaves like an empty one (JS pushes
nothing either way), so lists suffice; the target is optional. -/
structure ContextDebug where
  target_node : Option RawNode
  upstream_nodes : List RawNode
  downstream_nodes : List RawNode
  deriving DecidableEq, Repr

/-- The part of a `/api/query` response that `highlightQueryPath`
reads: `context_debug` (optional) and `sources`. -/
structure QueryResult where
  context_debug : Option ContextDebug
  sources : List Source
  deriving DecidableEq, Repr

/-- The `nodesToHighlight` list collected by `highlightQueryPath`:
target node (when present) followed by upstream then downstream
nodes. -/
def nodesToHighlight (r : QueryResult) : List RawNode :=
  match r.context_debug with
  | none => []
  | some d =>
    (match d.target_node with
     | some t => [t]
     | none => []) ++ d.upstream_nodes ++ d.downstream_nodes

/-- One step of the `nodesToHighlight.forEach` loop: nodes with a
falsy id are skipped; an existing node is highlighted in place, a
missing one is added already highlighted. -/
def processQueryNode (s : AppState) (node : RawNode) : AppState :=
  if node.id = "" then s
  else if s.nodesDataset.any (fun n => n.id == node.id) then
    highlightNode s node.id true
  else addNodeToGraph s node true

/-- The edge pass of `highlightQueryPath`: every dataset edge whose
two endpoints are both in `highlightedIds` is pushed to the highlight
style and its id added to `highlightedEdges`. -/
def highlightEdgesBetween (s : AppState) (ids : List String) : AppState :=
  { s with
    edgesDataset := s.edgesDataset.map (fun e =>
      if e.from_ ∈ ids ∧ e.to_ ∈ ids then
        { e with colorColor := HIGHLIGHT_COLOR, colorOpacity := 1, width := 3 }
      else e)
    highlightedEdges :=
      ((s.edgesDataset.filter (fun e =>
          decide (e.from_ ∈ ids ∧ e.to_ ∈ ids))).map (fun e => e.id)).foldl
        setAdd s.highlightedEdges }

/-- The labels of the first `type === 'path'` source, split on
`' → '`; an absent path source or empty value yields no labels. -/
def pathLabels (r : QueryResult) : List String :=
  match r.sources.find? (fun src => src.stype == "path") with
  | some src => if src.value = "" then [] else strSplitOn src.value " → "
  | none => []

/-- One label of the path pass: every dataset node whose (truncated)
label matches case-insensitively is highlighted. -/
def highlightPathLabel (s : AppState) (label : String) : AppState :=
  ((s.nodesDataset.filter (fun n =>
      strLower n.label == strLower label)).map (fun n => n.id)).foldl
    (fun st nodeId => highlightNode st nodeId true) s

/-- `highlightQueryPath(result)`: clear the previous highlight,
highlight/add the target, upstream and downstream nodes, highlight
every dataset edge between two highlighted ids, then best-effort
highlight the nodes named by a literal path source.  The final
`network.fit` call does not touch the modelled state. -/
def highlightQueryPath (s : AppState) (r : QueryResult) : AppState :=
  let s1 := clearHighlights s
  let s2 := (nodesToHighlight r).foldl processQueryNode s1
  let ids := ((nodesToHighlight r).map (fun n => n.id)).filter (fun i => i ≠ "")
  let s3 := highlightEdgesBetween s2 ids
  (pathLabels r).foldl highlightPathLabel s3

/-- A toast notification: message and kind
(`success`/`error`/`warning`/`info`). -/
structure Toast where
  message : String
  kind : String
  deriving DecidableEq, Repr

/-- Outcome of a network call as seen by a completion callback. -/
inductive FetchOutcome (α : Type) where
  | success (value : α)
  | failure (message : String)
  deriving DecidableEq, Repr

/-- `executeQuery()` given the text in the query box and the outcome
of the `POST /api/query` call.  An empty query never reaches the
network; a failure (non-success status with its `{detail}` message, or
a network error) lands in the catch block, which only paints the error
and shows a toast — the graph state is returned unchanged.  Only the
success branch runs `highlightQueryPath`. -/
def executeQuery (s : AppState) (queryText : String)
    (resp : FetchOutcome QueryResult) : AppState × List Toast :=
  if strTrim queryText = "" then (s, [⟨"Please enter a query", "warning"⟩])
  else
    match resp with
    | .success r => (highlightQueryPath s r, [⟨"Query completed!", "success"⟩])
    | .failure msg => (s, [⟨"Query failed: " ++ msg, "error"⟩])

/-- A `/api/graph/traverse` response: `{nodes, edges, count}`. -/
structure TraversalResult where
  nodes : List RawNode
  edges : List RawEdge
  count : Nat
  deriving DecidableEq, Repr

/-- The synthetic id `showTraversal` derives for a traversal edge:
`dynamic-edge-${edge.source}-${edge.target}`. -/
def dynamicEdgeId (source target : String) : String :=
  "dynamic-edge-" ++ source ++ "-" ++ target

/-- One step of the traversal node loop (no falsy-id guard here):
highlight an existing node, otherwise add it highlighted. -/
def processTraversalNode (s : AppState) (node : RawNode) : AppState :=
  if s.nodesDataset.any (fun n => n.id == node.id) then
    highlightNode s node.id true
  else addNodeToGraph s node true

/-- One step of the traversal edge loop: under the synthetic id, add a
new highlighted edge when absent, otherwise push the highlight style
onto the existing one; either way record the id in
`highlightedEdges`. -/
def processTraversalEdge (s : AppState) (edge : RawEdge) : AppState :=
  let eid := dynamicEdgeId edge.source edge.target
  if s.edgesDataset.any (fun e => e.id == eid) then
    { s with
      edgesDataset := s.edgesDataset.map (fun e =>
        if e.id = eid then
          { e with colorColor := HIGHLIGHT_COLOR, colorOpacity := 1, width := 3 }
        else e)
      highlightedEdges := setAdd s.highlightedEdges eid }
  else
    { s with
      edgesDataset := s.edgesDataset ++
        [{ id := eid
           from_ := edge.source
           to_ := edge.target
           colorColor := HIGHLIGHT_COLOR
           colorOpacity := 1
           width := 3
           etype := edge.etype }]
      highlightedEdges := setAdd s.highlightedEdges eid }

/-- The state change `showTraversal` performs once a non-null response
with a `nodes` field has arrived for the selected node `sel`. -/
def showTraversalBody (s : AppState) (sel : String)
    (result : TraversalResult) : AppState :=
  let s1 := clearHighlights s
  let s2 := highlightNode s1 sel true
  let s3 := result.nodes.foldl processTraversalNode s2
  result.edges.foldl processTraversalEdge s3

/-- Result of `showTraversal(direction)`: next state, whether the
`/api/graph/traverse` fetch was issued, and the toasts shown. -/
structure TraversalOutcome where
  state : AppState
  fetchIssued : Bool
  toasts : List Toast
  deriving DecidableEq, Repr

/-- `showTraversal(direction)`: with no selected node it only shows a
warning toast and returns — no fetch, no state change.  Otherwise the
fetch is issued; a null result (`fetchTraversal` caught an error)
changes nothing, a real result is applied by `showTraversalBody` and
reported with a success toast. -/
def showTraversal (s : AppState) (direction : String)
    (resp : Option TraversalResult) : TraversalOutcome :=
  match s.selectedNodeId with
  | none => ⟨s, false, [⟨"Please select a node first", "warning"⟩]⟩
  | some sel =>
    match resp with
    | none => ⟨s, true, []⟩
    | some result =>
      ⟨showTraversalBody s sel result, true,
       [⟨"Found " ++ toString result.count ++ " " ++ direction ++ " nodes",
         "success"⟩]⟩

/-- `filterGraph()` with the set of checked tier values: every dataset
node gets `hidden := !enabledTiers.has(tier)` where an undefined tier
counts as -1; nothing else is written. -/
def filterGraph (s : AppState) (enabledTiers : List Int) : AppState :=
  { s with
    nodesDataset := s.nodesDataset.map (fun n =>
      { n with hidden := !(enabledTiers.contains (n.tier.getD (-1))) }) }

/-- `event.target.value.trim().toLowerCase()` — the query string
`searchNodes` derives from the raw input text. -/
def normalizeQuery (raw : String) : String :=
  strLower (strTrim raw)

/-- What a single `searchNodes` invocation does synchronously: for a
normalized query shorter than 2 characters it empties the results
list and returns before any fetch; otherwise it issues the
`POST /api/graph/search` call for that query. -/
structure SearchAction where
  clearedResults : Bool
  networkCall : Option String
  deriving DecidableEq, Repr

def searchNodes (raw : String) : SearchAction :=
  let query := normalizeQuery raw
  if query.length < 2 then ⟨true, none⟩
  else ⟨false, some query⟩

/-- `String.includes` (substring containment) over the character
list. -/
def containsSub (hay pat : String) : Bool :=
  hay.toList.tails.any (fun t => pat.toList.isPrefixOf t)

/-- The local fallback `searchNodes` runs when the remote search
fails: case-insensitive substring match of the query against dataset
labels and ids, capped at 10 results, mapped back to the domain
records. -/
def searchLocalFallback (s : AppState) (query : String) : List RawNode :=
  ((s.nodesDataset.filter (fun n =>
      containsSub (strLower n.label) query || containsSub (strLower n.id) query)).take
    10).map (fun n => n.data)

/-- Runtime semantics of `debounce(func, wait)` over a timestamped
call sequence: each call clears the pending timer and schedules
`func` at its own time plus `wait`, so a call's invocation survives
exactly when no later call arrives strictly within `wait`
milliseconds; the last call always fires.  Returns the payloads of
the calls that actually invoke `func`, in order. -/
def firedCalls (wait : Nat) : List (Nat × String) → List String
  | [] => []
  | [(_, q)] => [q]
  | (t1, q1) :: (t2, q2) :: rest =>
    if t2 < t1 + wait then firedCalls wait ((t2, q2) :: rest)
    else q1 :: firedCalls wait ((t2, q2) :: rest)

/-- The network calls a timestamped keystroke burst produces: debounce
first, then the minimum-length gate of `searchNodes`. -/
def issuedCalls (wait : Nat) (keystrokes : List (Nat × String)) : List String :=
  (firedCalls wait keystrokes).filterMap (fun q => (searchNodes q).networkCall)

/-- Search completion handling: each arriving response (remote
results, or the local fallback after a failure) is rendered by
`displaySearchResults`, which unconditionally overwrites the results
list — there is no staleness check, so after a run of arrivals the
display holds the payload of whichever response arrived last. -/
def displayAfterArrivals (current : List RawNode)
    (arrivals : List (List RawNode)) : List RawNode :=
  arrivals.foldl (fun _ results => results) current

/-- The ids of the nodes currently in the renderer dataset. -/
def nodeIds (s : AppState) : List String :=
  s.nodesDataset.map (fun n => n.id)

/-- The ids of the edges currently in the renderer dataset. -/
def edgeIds (s : AppState) : List String :=
  s.edgesDataset.map (fun e => e.id)

/-- The node ids a query result asks to highlight, in order, with the
`Set` semantics of repeated adds. -/
def queryHighlightIds (l : List RawNode) (acc : List String) : List String :=
  l.foldl (fun ids n => if n.id = "" then ids else setAdd ids n.id) acc

/-- The identity-relevant part of a vis edge: id and endpoints.  Every
highlight/clear operation rewrites at most the style fields, so these
triples are preserved. -/
def edgeTriple (e : VisEdge) : String × String × String :=
  (e.id, e.from_, e.to_)

def edgeTriples (s : AppState) : List (String × String × String) :=
  s.edgesDataset.map edgeTriple

/-- The id list of the dataset edges whose endpoints both lie in
`ids`, expressed on the preserved triples. -/
def matchedEdgeIds (ts : List (String × String × String))
    (ids : List String) : List String :=
  (ts.filter (fun t => decide (t.2.1 ∈ ids ∧ t.2.2 ∈ ids))).map (fun t => t.1)

/-- The node ids `highlightQueryPath` passes to the edge pass. -/
def queryIds (r : QueryResult) : List String :=
  ((nodesToHighlight r).map (fun n => n.id)).filter (fun i => i ≠ "")

def exNodeA : RawNode := ⟨"A", some "A", some "FIELD", some 1⟩

def exNodeB : RawNode := ⟨"B", some "B", some "FIELD", some 3⟩

def exNodeC : RawNode := ⟨"C", some "C", some "FIELD", some 2⟩

def exEdgeAB : RawEdge := ⟨"A", "B", none⟩

/-- Export scenario of spec §8: nodes A (tier 1) and B (tier 3), one
edge A→B. -/
def exState : AppState := initializeNetwork [exNodeA, exNodeB] [exEdgeAB]

def exStateC : AppState := initializeNetwork [exNodeA, exNodeB, exNodeC] [exEdgeAB]

/-- Query result of spec §8: target B, upstream [A]. -/
def exQuery : QueryResult := ⟨some ⟨some exNodeB, [exNodeA], []⟩, []⟩

/-- The same result additionally carrying a literal path source whose
label names node C. -/
def exQueryPath : QueryResult := ⟨some ⟨some exNodeB, [exNodeA], []⟩, [⟨"path", "C"⟩]⟩

/-- A query result referencing only node C, which is absent from
`exState`. -/
def exQueryC : QueryResult := ⟨some ⟨some exNodeC, [], []⟩, []⟩

def exTraversal : TraversalResult := ⟨[], [exEdgeAB], 1⟩

def exStateSel : AppState := { exState with selectedNodeId := some "A" }

/-- Search-result payloads for the reorder scenario: what the backend
returns for the query `lv` and for the query `lvr`. -/
def resLv : List RawNode := [⟨"lv-node", some "LV", some "FIELD", some 1⟩]

def resLvr : List RawNode := [⟨"lvr-node", some "LVR", some "FIELD", some 1⟩]

/-- A timestamped keystroke burst in which every keystroke lands
strictly within the debounce window of its predecessor (Bool-valued,
so a concrete burst can be checked by evaluation). -/
def gapsWithin (wait : Nat) : List (Nat × String) → Bool
  | [] => true
  | [_] => true
  | a :: b :: rest => (decide (b.1 < a.1 + wait)) && gapsWithin wait (b :: rest)

/-! ### Theorems -/

theorem map_map_of_proj_eq {α β : Type} (l : List α) (g : α → α) (f : α → β)
    (h : ∀ a, f (g a) = f a) : (l.map g).map f = l.map f := by
  induction l with
  | nil => rfl
  | cons a l ih => simp [h, ih]

theorem mem_setAdd (l : List String) (x y : String) :
    y ∈ setAdd l x ↔ y ∈ l ∨ y = x := by
  by_cases h : x ∈ l
  · simp only [setAdd, if_pos h]
    constructor
    · exact fun hy => Or.inl hy
    · rintro (hy | rfl) <;> [exact hy; exact h]
  · simp [setAdd, if_neg h]

theorem nodeIds_highlightNode (s : AppState) (i : String) (b : Bool) :
    nodeIds (highlightNode s i b) = nodeIds s := by
  cases b <;>
    exact map_map_of_proj_eq _ _ _ (fun n => by split <;> rfl)

theorem nodeIds_clearHighlights (s : AppState) :
    nodeIds (clearHighlights s) = nodeIds s :=
  map_map_of_proj_eq _ _ _ (fun n => by split <;> rfl)

theorem edgeIds_clearHighlights (s : AppState) :
    edgeIds (clearHighlights s) = edgeIds s :=
  map_map_of_proj_eq _ _ _ (fun e => by split <;> rfl)

theorem edgeIds_highlightNode (s : AppState) (i : String) (b : Bool) :
    edgeIds (highlightNode s i b) = edgeIds s := by
  cases b <;> rfl

theorem edgeIds_addNodeToGraph (s : AppState) (n : RawNode) (hl : Bool) :
    edgeIds (addNodeToGraph s n hl) = edgeIds s := by
  unfold addNodeToGraph; split <;> rfl

/-- `nodesDataset.any (n => n.id == x)` is membership of `x` in
`nodeIds`. -/
theorem any_id_eq_mem_nodeIds (s : AppState) (x : String) :
    s.nodesDataset.any (fun n => n.id == x) = true ↔ x ∈ nodeIds s := by
  simp [nodeIds, List.any_eq_true, List.mem_map]

theorem any_id_eq_mem_edgeIds (s : AppState) (x : String) :
    s.edgesDataset.any (fun e => e.id == x) = true ↔ x ∈ edgeIds s := by
  simp [edgeIds, List.any_eq_true, List.mem_map]

/-- `addNodeToGraph` is a no-op when the id is already present. -/
theorem addNodeToGraph_of_mem (s : AppState) (n : RawNode) (hl : Bool)
    (h : n.id ∈ nodeIds s) : addNodeToGraph s n hl = s := by
  unfold addNodeToGraph
  rw [if_pos ((any_id_eq_mem_nodeIds s n.id).mpr h)]

theorem nodeIds_addNodeToGraph_of_not_mem (s : AppState) (n : RawNode) (hl : Bool)
    (h : n.id ∉ nodeIds s) :
    nodeIds (addNodeToGraph s n hl) = nodeIds s ++ [n.id] := by
  unfold addNodeToGraph
  rw [if_neg (fun hc => h ((any_id_eq_mem_nodeIds s n.id).mp hc))]
  simp [nodeIds]

/-- One reconciler node step either leaves the dataset ids unchanged
(skip or highlight-in-place) or appends the — previously absent —
new id. -/
theorem nodeIds_processQueryNode (s : AppState) (n : RawNode) :
    nodeIds (processQueryNode s n) = nodeIds s ∨
      (nodeIds (processQueryNode s n) = nodeIds s ++ [n.id] ∧ n.id ∉ nodeIds s) := by
  unfold processQueryNode
  by_cases h0 : n.id = ""
  · exact Or.inl (by rw [if_pos h0])
  rw [if_neg h0]
  by_cases h1 : s.nodesDataset.any (fun m => m.id == n.id) = true
  · rw [if_pos h1]
    exact Or.inl (nodeIds_highlightNode s n.id true)
  · rw [if_neg h1]
    refine Or.inr ⟨?_, fun hc => h1 ((any_id_eq_mem_nodeIds s n.id).mpr hc)⟩
    exact nodeIds_addNodeToGraph_of_not_mem s n true
      (fun hc => h1 ((any_id_eq_mem_nodeIds s n.id).mpr hc))

theorem nodeIds_processTraversalNode (s : AppState) (n : RawNode) :
    nodeIds (processTraversalNode s n) = nodeIds s ∨
      (nodeIds (processTraversalNode s n) = nodeIds s ++ [n.id] ∧ n.id ∉ nodeIds s) := by
  unfold processTraversalNode
  by_cases h1 : s.nodesDataset.any (fun m => m.id == n.id) = true
  · rw [if_pos h1]
    exact Or.inl (nodeIds_highlightNode s n.id true)
  · rw [if_neg h1]
    refine Or.inr ⟨?_, fun hc => h1 ((any_id_eq_mem_nodeIds s n.id).mpr hc)⟩
    exact nodeIds_addNodeToGraph_of_not_mem s n true
      (fun hc => h1 ((any_id_eq_mem_nodeIds s n.id).mpr hc))

/-- Dataset ids only grow, stay duplicate-free, and contain the
processed node's id afterwards (reconciler step). -/
theorem processQueryNode_ids (s : AppState) (n : RawNode) :
    (∀ x ∈ nodeIds s, x ∈ nodeIds (processQueryNode s n)) ∧
    ((nodeIds s).Nodup → (nodeIds (processQueryNode s n)).Nodup) ∧
    (n.id ≠ "" → n.id ∈ nodeIds (processQueryNode s n)) := by
  unfold processQueryNode
  by_cases h0 : n.id = ""
  · rw [if_pos h0]
    exact ⟨fun x hx => hx, id, fun hne => absurd h0 hne⟩
  rw [if_neg h0]
  by_cases h1 : s.nodesDataset.any (fun m => m.id == n.id) = true
  · rw [if_pos h1]
    have hids := nodeIds_highlightNode s n.id true
    exact ⟨fun x hx => hids ▸ hx, fun hd => hids ▸ hd,
      fun _ => hids ▸ (any_id_eq_mem_nodeIds s n.id).mp h1⟩
  · rw [if_neg h1]
    have habs : n.id ∉ nodeIds s :=
      fun hc => h1 ((any_id_eq_mem_nodeIds s n.id).mpr hc)
    have hids := nodeIds_addNodeToGraph_of_not_mem s n true habs
    exact ⟨fun x hx => by rw [hids]; exact List.mem_append_left _ hx,
      fun hd => by rw [hids]; simpa [List.nodup_append] using ⟨hd, habs⟩,
      fun _ => by rw [hids]; exact List.mem_append_right _ (by simp)⟩

theorem processTraversalNode_ids (s : AppState) (n : RawNode) :
    (∀ x ∈ nodeIds s, x ∈ nodeIds (processTraversalNode s n)) ∧
    ((nodeIds s).Nodup → (nodeIds (processTraversalNode s n)).Nodup) := by
  rcases nodeIds_processTraversalNode s n with h | ⟨h, habs⟩
  · exact ⟨fun x hx => h ▸ hx, fun hd => h ▸ hd⟩
  · exact ⟨fun x hx => by rw [h]; exact List.mem_append_left _ hx,
      fun hd => by rw [h]; simpa [List.nodup_append] using ⟨hd, habs⟩⟩

/-- Fold of reconciler node steps: ids are preserved, stay
duplicate-free, and every listed node with a truthy id ends up in the
dataset. -/
theorem foldl_processQueryNode_ids (l : List RawNode) (s : AppState) :
    (∀ x ∈ nodeIds s, x ∈ nodeIds (l.foldl processQueryNode s)) ∧
    ((nodeIds s).Nodup → (nodeIds (l.foldl processQueryNode s)).Nodup) ∧
    (∀ n ∈ l, n.id ≠ "" → n.id ∈ nodeIds (l.foldl processQueryNode s)) := by
  induction l generalizing s with
  | nil => exact ⟨fun x hx => hx, fun hd => hd, fun n hn => absurd hn (by simp)⟩
  | cons a l ih =>
    refine ⟨fun x hx => ?_, fun hd => ?_, fun n hn hne => ?_⟩
    · exact (ih (processQueryNode s a)).1 x ((processQueryNode_ids s a).1 x hx)
    · exact (ih (processQueryNode s a)).2.1 ((processQueryNode_ids s a).2.1 hd)
    · rcases List.mem_cons.mp hn with rfl | hmem
      · exact (ih (processQueryNode s n)).1 n.id
          ((processQueryNode_ids s n).2.2 hne)
      · exact (ih (processQueryNode s a)).2.2 n hmem hne

theorem foldl_processTraversalNode_ids (l : List RawNode) (s : AppState) :
    (∀ x ∈ nodeIds s, x ∈ nodeIds (l.foldl processTraversalNode s)) ∧
    ((nodeIds s).Nodup → (nodeIds (l.foldl processTraversalNode s)).Nodup) := by
  induction l generalizing s with
  | nil => exact ⟨fun x hx => hx, fun hd => hd⟩
  | cons a l ih =>
    refine ⟨fun x hx => ?_, fun hd => ?_⟩
    · exact (ih (processTraversalNode s a)).1 x ((processTraversalNode_ids s a).1 x hx)
    · exact (ih (processTraversalNode s a)).2 ((processTraversalNode_ids s a).2 hd)

theorem nodeIds_highlightEdgesBetween (s : AppState) (ids : List String) :
    nodeIds (highlightEdgesBetween s ids) = nodeIds s := rfl

theorem nodeIds_foldl_highlight (l : List String) (s : AppState) :
    nodeIds (l.foldl (fun st nodeId => highlightNode st nodeId true) s) = nodeIds s := by
  induction l generalizing s with
  | nil => rfl
  | cons a l ih => rw [List.foldl_cons, ih, nodeIds_highlightNode]

theorem nodeIds_highlightPathLabel (s : AppState) (label : String) :
    nodeIds (highlightPathLabel s label) = nodeIds s :=
  nodeIds_foldl_highlight _ s

theorem nodeIds_foldl_highlightPathLabel (labels : List String) (s : AppState) :
    nodeIds (labels.foldl highlightPathLabel s) = nodeIds s := by
  induction labels generalizing s with
  | nil => rfl
  | cons a labels ih => rw [List.foldl_cons, ih, nodeIds_highlightPathLabel]

/-- Through a whole `highlightQueryPath` application: existing ids
survive, duplicate-freeness survives, and every referenced node with a
truthy id is present afterwards. -/
theorem nodeIds_highlightQueryPath (s : AppState) (r : QueryResult) :
    (∀ x ∈ nodeIds s, x ∈ nodeIds (highlightQueryPath s r)) ∧
    ((nodeIds s).Nodup → (nodeIds (highlightQueryPath s r)).Nodup) ∧
    (∀ n ∈ nodesToHighlight r, n.id ≠ "" →
      n.id ∈ nodeIds (highlightQueryPath s r)) := by
  unfold highlightQueryPath
  rw [nodeIds_foldl_highlightPathLabel, nodeIds_highlightEdgesBetween]
  have hclear := nodeIds_clearHighlights s
  refine ⟨fun x hx => ?_, fun hd => ?_, fun n hn hne => ?_⟩
  · exact (foldl_processQueryNode_ids _ _).1 x (hclear ▸ hx)
  · exact (foldl_processQueryNode_ids _ _).2.1 (hclear ▸ hd)
  · exact (foldl_processQueryNode_ids _ _).2.2 n hn hne

theorem nodeIds_showTraversalBody (s : AppState) (sel : String)
    (res : TraversalResult) :
    (nodeIds s).Nodup → (nodeIds (showTraversalBody s sel res)).Nodup := by
  intro hd
  unfold showTraversalBody
  have h1 : nodeIds (res.edges.foldl processTraversalEdge
      (res.nodes.foldl processTraversalNode
        (highlightNode (clearHighlights s) sel true)))
      = nodeIds (res.nodes.foldl processTraversalNode
        (highlightNode (clearHighlights s) sel true)) := by
    generalize (res.nodes.foldl processTraversalNode
      (highlightNode (clearHighlights s) sel true)) = st
    induction res.edges generalizing st with
    | nil => rfl
    | cons e es ih =>
      rw [List.foldl_cons, ih]
      unfold processTraversalEdge
      dsimp only
      split <;> rfl
  rw [h1]
  exact (foldl_processTraversalNode_ids _ _).2
    (by rw [nodeIds_highlightNode, nodeIds_clearHighlights]; exact hd)

theorem edgeIds_processTraversalNode (s : AppState) (n : RawNode) :
    edgeIds (processTraversalNode s n) = edgeIds s := by
  unfold processTraversalNode
  split
  · exact edgeIds_highlightNode s n.id true
  · exact edgeIds_addNodeToGraph s n true

theorem edgeIds_foldl_processTraversalNode (l : List RawNode) (s : AppState) :
    edgeIds (l.foldl processTraversalNode s) = edgeIds s := by
  induction l generalizing s with
  | nil => rfl
  | cons a l ih => rw [List.foldl_cons, ih, edgeIds_processTraversalNode]

theorem processTraversalEdge_ids (s : AppState) (e : RawEdge) :
    (∀ x ∈ edgeIds s, x ∈ edgeIds (processTraversalEdge s e)) ∧
    ((edgeIds s).Nodup → (edgeIds (processTraversalEdge s e)).Nodup) ∧
    dynamicEdgeId e.source e.target ∈ edgeIds (processTraversalEdge s e) := by
  unfold processTraversalEdge
  dsimp only
  by_cases h1 : (s.edgesDataset.any fun x =>
      x.id == dynamicEdgeId e.source e.target) = true
  · rw [if_pos h1]
    have hids : edgeIds { s with
        edgesDataset := s.edgesDataset.map (fun x =>
          if x.id = dynamicEdgeId e.source e.target then
            { x with colorColor := HIGHLIGHT_COLOR, colorOpacity := 1, width := 3 }
          else x)
        highlightedEdges := setAdd s.highlightedEdges
          (dynamicEdgeId e.source e.target) } = edgeIds s :=
      map_map_of_proj_eq _ _ _ (fun x => by split <;> rfl)
    exact ⟨fun x hx => hids ▸ hx, fun hd => hids ▸ hd,
      hids ▸ (any_id_eq_mem_edgeIds s _).mp h1⟩
  · rw [if_neg h1]
    have habs : dynamicEdgeId e.source e.target ∉ edgeIds s :=
      fun hc => h1 ((any_id_eq_mem_edgeIds s _).mpr hc)
    refine ⟨fun x hx => ?_, fun hd => ?_, ?_⟩
    · simp only [edgeIds, List.map_append]
      exact List.mem_append_left _ hx
    · have happ : (edgeIds s ++ [dynamicEdgeId e.source e.target]).Nodup := by
        simpa [List.nodup_append] using ⟨hd, habs⟩
      simpa [edgeIds, List.map_append] using happ
    · simp [edgeIds]

theorem foldl_processTraversalEdge_ids (l : List RawEdge) (s : AppState) :
    (∀ x ∈ edgeIds s, x ∈ edgeIds (l.foldl processTraversalEdge s)) ∧
    ((edgeIds s).Nodup → (edgeIds (l.foldl processTraversalEdge s)).Nodup) ∧
    (∀ e ∈ l, dynamicEdgeId e.source e.target
      ∈ edgeIds (l.foldl processTraversalEdge s)) := by
  induction l generalizing s with
  | nil => exact ⟨fun x hx => hx, fun hd => hd, fun e he => absurd he (by simp)⟩
  | cons a l ih =>
    refine ⟨fun x hx => ?_, fun hd => ?_, fun e he => ?_⟩
    · exact (ih (processTraversalEdge s a)).1 x ((processTraversalEdge_ids s a).1 x hx)
    · exact (ih (processTraversalEdge s a)).2.1 ((processTraversalEdge_ids s a).2.1 hd)
    · rcases List.mem_cons.mp he with rfl | hmem
      · exact (ih (processTraversalEdge s e)).1 _ ((processTraversalEdge_ids s e).2.2)
      · exact (ih (processTraversalEdge s a)).2.2 e hmem

/-- The highlight-set effect of one reconciler node step: skip falsy
ids, otherwise add the id (both the highlight and the add-new branch
do `highlightedNodes.add`). -/
theorem highlightedNodes_processQueryNode (s : AppState) (n : RawNode) :
    (processQueryNode s n).highlightedNodes =
      if n.id = "" then s.highlightedNodes else setAdd s.highlightedNodes n.id := by
  unfold processQueryNode
  by_cases h0 : n.id = ""
  · rw [if_pos h0, if_pos h0]
  rw [if_neg h0, if_neg h0]
  by_cases h1 : s.nodesDataset.any (fun m => m.id == n.id) = true
  · rw [if_pos h1]; rfl
  · rw [if_neg h1]
    unfold addNodeToGraph
    rw [if_neg h1]
    rfl

theorem highlightedNodes_foldl_processQueryNode (l : List RawNode) (s : AppState) :
    (l.foldl processQueryNode s).highlightedNodes
      = queryHighlightIds l s.highlightedNodes := by
  induction l generalizing s with
  | nil => rfl
  | cons a l ih =>
    rw [List.foldl_cons, ih, highlightedNodes_processQueryNode]
    rfl

theorem mem_queryHighlightIds (l : List RawNode) (acc : List String) (x : String) :
    x ∈ queryHighlightIds l acc ↔ x ∈ acc ∨ ∃ n ∈ l, n.id = x ∧ x ≠ "" := by
  induction l generalizing acc with
  | nil => simp [queryHighlightIds]
  | cons a l ih =>
    show x ∈ queryHighlightIds l _ ↔ _
    rw [ih]
    dsimp only
    by_cases h0 : a.id = ""
    · rw [if_pos h0]
      constructor
      · rintro (hx | hx)
        · exact Or.inl hx
        · exact Or.inr (by rcases hx with ⟨n, hn, he⟩; exact ⟨n, List.mem_cons_of_mem a hn, he⟩)
      · rintro (hx | ⟨n, hn, he, hne⟩)
        · exact Or.inl hx
        · rcases List.mem_cons.mp hn with rfl | hn'
          · exact absurd (he.symm.trans h0) hne
          · exact Or.inr ⟨n, hn', he, hne⟩
    · rw [if_neg h0, ]
      constructor
      · rintro (hx | hx)
        · rcases (mem_setAdd acc a.id x).mp hx with hx' | rfl
          · exact Or.inl hx'
          · exact Or.inr ⟨a, List.mem_cons_self a l, rfl, h0⟩
        · exact Or.inr (by rcases hx with ⟨n, hn, he⟩; exact ⟨n, List.mem_cons_of_mem a hn, he⟩)
      · rintro (hx | ⟨n, hn, he, hne⟩)
        · exact Or.inl ((mem_setAdd acc a.id x).mpr (Or.inl hx))
        · rcases List.mem_cons.mp hn with rfl | hn'
          · exact Or.inl ((mem_setAdd acc n.id x).mpr (Or.inr he.symm))
          · exact Or.inr ⟨n, hn', he, hne⟩

theorem edgesDataset_processQueryNode (s : AppState) (n : RawNode) :
    (processQueryNode s n).edgesDataset = s.edgesDataset := by
  unfold processQueryNode
  split
  · rfl
  split
  · rfl
  · unfold addNodeToGraph
    split <;> rfl

theorem highlightedEdges_processQueryNode (s : AppState) (n : RawNode) :
    (processQueryNode s n).highlightedEdges = s.highlightedEdges := by
  unfold processQueryNode
  split
  · rfl
  split
  · rfl
  · unfold addNodeToGraph
    split <;> rfl

theorem edges_foldl_processQueryNode (l : List RawNode) (s : AppState) :
    (l.foldl processQueryNode s).edgesDataset = s.edgesDataset ∧
    (l.foldl processQueryNode s).highlightedEdges = s.highlightedEdges := by
  induction l generalizing s with
  | nil => exact ⟨rfl, rfl⟩
  | cons a l ih =>
    rw [List.foldl_cons]
    exact ⟨(ih _).1.trans (edgesDataset_processQueryNode s a),
      (ih _).2.trans (highlightedEdges_processQueryNode s a)⟩

theorem edgeTriples_clearHighlights (s : AppState) :
    edgeTriples (clearHighlights s) = edgeTriples s :=
  map_map_of_proj_eq _ _ _ (fun e => by split <;> rfl)

theorem edgeTriples_highlightEdgesBetween (s : AppState) (ids : List String) :
    edgeTriples (highlightEdgesBetween s ids) = edgeTriples s :=
  map_map_of_proj_eq _ _ _ (fun e => by split <;> rfl)

theorem edgesDataset_highlightNode (s : AppState) (i : String) (b : Bool) :
    (highlightNode s i b).edgesDataset = s.edgesDataset := by
  cases b <;> rfl

theorem edgesDataset_highlightPathLabel (s : AppState) (label : String) :
    (highlightPathLabel s label).edgesDataset = s.edgesDataset := by
  unfold highlightPathLabel
  generalize ((s.nodesDataset.filter _).map _) = l
  induction l generalizing s with
  | nil => rfl
  | cons a l ih => rw [List.foldl_cons, ih, edgesDataset_highlightNode]

theorem edgesDataset_foldl_highlightPathLabel (labels : List String) (s : AppState) :
    (labels.foldl highlightPathLabel s).edgesDataset = s.edgesDataset := by
  induction labels generalizing s with
  | nil => rfl
  | cons a labels ih => rw [List.foldl_cons, ih, edgesDataset_highlightPathLabel]

/-- A whole `highlightQueryPath` run never adds, removes or rewires an
edge: edge ids and endpoints are exactly preserved. -/
theorem edgeTriples_highlightQueryPath (s : AppState) (r : QueryResult) :
    edgeTriples (highlightQueryPath s r) = edgeTriples s := by
  unfold highlightQueryPath
  dsimp only
  unfold edgeTriples
  rw [edgesDataset_foldl_highlightPathLabel]
  have h4 := edgeTriples_highlightEdgesBetween
    ((nodesToHighlight r).foldl processQueryNode (clearHighlights s))
    (((nodesToHighlight r).map (fun n => n.id)).filter (fun i => i ≠ ""))
  unfold edgeTriples at h4
  rw [h4, (edges_foldl_processQueryNode _ _).1]
  have h5 := edgeTriples_clearHighlights s
  unfold edgeTriples at h5
  exact h5

theorem matchedEdgeIds_eq (l : List VisEdge) (ids : List String) :
    ((l.filter (fun e => decide (e.from_ ∈ ids ∧ e.to_ ∈ ids))).map (fun e => e.id))
      = matchedEdgeIds (l.map edgeTriple) ids := by
  induction l with
  | nil => rfl
  | cons e l ih =>
    unfold matchedEdgeIds at ih ⊢
    by_cases h : (e.from_ ∈ ids ∧ e.to_ ∈ ids)
    · rw [List.filter_cons_of_pos (by simpa using h)]
      rw [show List.map edgeTriple (e :: l) = edgeTriple e :: List.map edgeTriple l
          from List.map_cons edgeTriple e l]
      rw [List.filter_cons_of_pos (by simpa [edgeTriple] using h)]
      rw [List.map_cons, List.map_cons, ih]
      rfl
    · rw [List.filter_cons_of_neg (by simpa using h)]
      rw [show List.map edgeTriple (e :: l) = edgeTriple e :: List.map edgeTriple l
          from List.map_cons edgeTriple e l]
      rw [List.filter_cons_of_neg (by simpa [edgeTriple] using h)]
      exact ih

theorem highlightedEdges_highlightEdgesBetween (s : AppState) (ids : List String) :
    (highlightEdgesBetween s ids).highlightedEdges
      = (matchedEdgeIds (edgeTriples s) ids).foldl setAdd s.highlightedEdges := by
  unfold highlightEdgesBetween edgeTriples
  dsimp only
  rw [matchedEdgeIds_eq]

/-- After a `highlightQueryPath` without a path source: the
highlighted node set is exactly the listed ids (a function of the
result alone), and the highlighted edge set is exactly the ids of the
dataset edges running between two listed ids. -/
theorem highlightedSets_highlightQueryPath (s : AppState) (r : QueryResult)
    (hp : pathLabels r = []) :
    (highlightQueryPath s r).highlightedNodes
      = queryHighlightIds (nodesToHighlight r) [] ∧
    (highlightQueryPath s r).highlightedEdges
      = (matchedEdgeIds (edgeTriples s) (queryIds r)).foldl setAdd [] := by
  unfold highlightQueryPath
  dsimp only
  rw [hp, List.foldl_nil]
  constructor
  · show ((nodesToHighlight r).foldl processQueryNode
        (clearHighlights s)).highlightedNodes = _
    rw [highlightedNodes_foldl_processQueryNode]
    rfl
  · rw [highlightedEdges_highlightEdgesBetween]
    rw [(edges_foldl_processQueryNode _ _).2]
    have h2 : (clearHighlights s).highlightedEdges = [] := rfl
    rw [h2]
    unfold edgeTriples
    rw [(edges_foldl_processQueryNode _ _).1]
    have h3 : edgeTriples (clearHighlights s) = edgeTriples s :=
      edgeTriples_clearHighlights s
    unfold edgeTriples at h3
    rw [h3]
    rfl

theorem getNodeSize_of_concept (c : RawNode) (hc : c.ntype = some "CONCEPT") :
    getNodeSize c = 18 := by
  simp [getNodeSize, hc]

theorem getNodeSize_of_field (f : RawNode) (t : Int)
    (hf : f.ntype = some "FIELD") (ht : f.tier = some t) :
    getNodeSize f = 12 + ((max 0 (4 - t) : Int) : ℚ) * (3 / 2) := by
  simp [getNodeSize, hf, ht]

/-- In a burst whose consecutive gaps all stay below the debounce
window, only the final call's timer survives: `debounce` fires exactly
once, with the last payload. -/
theorem firedCalls_burst (wait : Nat) (ks : List (Nat × String)) (t : Nat) (q : String)
    (h : gapsWithin wait (ks ++ [(t, q)]) = true) :
    firedCalls wait (ks ++ [(t, q)]) = [q] := by
  induction ks with
  | nil => rfl
  | cons a ks ih =>
    obtain ⟨ta, qa⟩ := a
    cases ks with
    | nil =>
      have hlt : t < ta + wait := by
        simpa [gapsWithin] using h
      show firedCalls wait [(ta, qa), (t, q)] = [q]
      simp [firedCalls, hlt]
    | cons b ks2 =>
      obtain ⟨tb, qb⟩ := b
      have hparts : tb < ta + wait ∧
          gapsWithin wait (((tb, qb) :: ks2) ++ [(t, q)]) = true := by
        simpa [gapsWithin] using h
      show firedCalls wait ((ta, qa) :: (tb, qb) :: (ks2 ++ [(t, q)])) = [q]
      simp only [firedCalls, if_pos hparts.1]
      exact ih hparts.2

/-- C2: for every node present in the renderer dataset whose current
visual is its pre-highlight baseline (which is what every
non-highlighted node carries: `originalColor` and
`getNodeSize(data)`), `highlightNode(id, true)` followed by
`highlightNode(id, false)` restores exactly the color and size the
node had before the highlight. -/
theorem highlight_unhighlight_restores (s : AppState) (n : VisNode)
    (hmem : n ∈ s.nodesDataset)
    (hcol : n.color = n.originalColor) (hsize : n.size = getNodeSize n.data) :
    ∃ n' ∈ (highlightNode (highlightNode s n.id true) n.id false).nodesDataset,
      n'.id = n.id ∧ n'.color = n.color ∧ n'.size = n.size := by
  simp only [highlightNode, if_pos, if_neg, Bool.false_eq_true, ite_true, ite_false]
  refine ⟨_, List.mem_map_of_mem _ (List.mem_map_of_mem _ hmem), ?_⟩
  simp [hcol, hsize]

/-- C2 witness: the round trip on node A of the loaded example
graph. -/
theorem highlight_unhighlight_restores_witness :
    mkVisNode exNodeA ∈ exState.nodesDataset ∧
    ∃ n' ∈ (highlightNode (highlightNode exState (mkVisNode exNodeA).id true)
        (mkVisNode exNodeA).id false).nodesDataset,
      n'.id = (mkVisNode exNodeA).id ∧ n'.color = (mkVisNode exNodeA).color ∧
      n'.size = (mkVisNode exNodeA).size :=
  ⟨List.mem_cons_self _ _,
   highlight_unhighlight_restores exState (mkVisNode exNodeA)
     (List.mem_cons_self _ _) rfl rfl⟩

/-- C5: when the `/api/query` call fails (non-success status carrying
its `{detail}` message, or a network error), `executeQuery` leaves the
whole graph/highlight state untouched and surfaces the error as an
error toast. -/
theorem executeQuery_failure_frame (s : AppState) (q msg : String)
    (hq : strTrim q ≠ "") :
    (executeQuery s q (.failure msg)).1 = s ∧
    (executeQuery s q (.failure msg)).2 = [⟨"Query failed: " ++ msg, "error"⟩] := by
  simp [executeQuery, hq]

/-- C5 witness: a failing query on the loaded example graph. -/
theorem executeQuery_failure_frame_witness :
    strTrim "why did my debt spike" ≠ "" ∧
    (executeQuery exState "why did my debt spike" (.failure "boom")).1 = exState ∧
    (executeQuery exState "why did my debt spike" (.failure "boom")).2
      = [⟨"Query failed: boom", "error"⟩] :=
  ⟨by decide,
   (executeQuery_failure_frame exState "why did my debt spike" "boom" (by decide)).1,
   (executeQuery_failure_frame exState "why did my debt spike" "boom" (by decide)).2⟩

/-- C6: `filterGraph` never touches the highlight sets, the edges or
the selection, and rewrites each node record only at its `hidden`
flag, which becomes true exactly when the node's effective tier
(undefined counts as -1) is not among the enabled tiers — so a node
can be simultaneously highlighted and hidden. -/
theorem filterGraph_frame (s : AppState) (tiers : List Int) :
    (filterGraph s tiers).highlightedNodes = s.highlightedNodes ∧
    (filterGraph s tiers).highlightedEdges = s.highlightedEdges ∧
    (filterGraph s tiers).edgesDataset = s.edgesDataset ∧
    (filterGraph s tiers).selectedNodeId = s.selectedNodeId ∧
    ∀ n ∈ s.nodesDataset,
      { n with hidden := !(tiers.contains (n.tier.getD (-1))) }
        ∈ (filterGraph s tiers).nodesDataset := by
  refine ⟨rfl, rfl, rfl, rfl, fun n hn => ?_⟩
  exact List.mem_map_of_mem
    (fun m => { m with hidden := !(tiers.contains (m.tier.getD (-1))) }) hn

/-- C6 witness: `setEnabledTiers({1})` on the example graph with B
highlighted — B is hidden yet stays highlighted, A stays visible. -/
theorem filterGraph_frame_witness :
    (filterGraph (highlightNode exState "B" true) [1]).highlightedNodes
      = (highlightNode exState "B" true).highlightedNodes ∧
    "B" ∈ (filterGraph (highlightNode exState "B" true) [1]).highlightedNodes ∧
    (∃ n ∈ (filterGraph (highlightNode exState "B" true) [1]).nodesDataset,
      n.id = "B" ∧ n.hidden = true) ∧
    ∃ n ∈ (filterGraph (highlightNode exState "B" true) [1]).nodesDataset,
      n.id = "A" ∧ n.hidden = false :=
  ⟨(filterGraph_frame (highlightNode exState "B" true) [1]).1,
   by decide, by decide, by decide⟩

/-- C10: with no node selected, `showTraversal` issues no fetch,
changes nothing, and only shows the warning toast. -/
theorem showTraversal_requires_selection (s : AppState) (direction : String)
    (resp : Option TraversalResult) (hsel : s.selectedNodeId = none) :
    showTraversal s direction resp
      = ⟨s, false, [⟨"Please select a node first", "warning"⟩]⟩ := by
  simp [showTraversal, hsel]

/-- C10 witness: upstream request on the freshly loaded graph, where
nothing is selected. -/
theorem showTraversal_requires_selection_witness :
    exState.selectedNodeId = none ∧
    showTraversal exState "upstream" (some exTraversal)
      = ⟨exState, false, [⟨"Please select a node first", "warning"⟩]⟩ :=
  ⟨rfl, showTraversal_requires_selection exState "upstream" (some exTraversal) rfl⟩

/-- C1 counterexample: there is no request sequence number.  With two
searches fired 400 ms apart (outside one debounce window) both fetches
go out; when the `lvr` response arrives first and the stale `lv`
response second, the display ends up showing the `lv` results, not
those of the later query. -/
theorem search_stale_response_displayed :
    firedCalls 300 [(0, "lv"), (400, "lvr")] = ["lv", "lvr"] ∧
    displayAfterArrivals [] [resLvr, resLv] = resLv ∧
    resLv ≠ resLvr := by decide

/-- C1 (amended): a search completion unconditionally overwrites the
results list, so the display always reflects whichever response
arrived last; reordering is prevented only within a single debounce
window, where the earlier query's fetch is never issued (as in the
spec's 50 ms scenario). -/
theorem search_last_response_wins (init last : List RawNode)
    (pre : List (List RawNode)) (t1 t2 : Nat) (q1 q2 : String)
    (hgap : t2 < t1 + 300) :
    displayAfterArrivals init (pre ++ [last]) = last ∧
    firedCalls 300 [(t1, q1), (t2, q2)] = [q2] := by
  constructor
  · unfold displayAfterArrivals
    rw [List.foldl_append]
    rfl
  · simp [firedCalls, hgap]

/-- C1 witness: the 50 ms scenario — only the `lvr` fetch fires, and
the last-arriving response is the one displayed. -/
theorem search_last_response_wins_witness :
    (50 < 0 + 300) ∧
    displayAfterArrivals [] ([resLv] ++ [resLvr]) = resLvr ∧
    firedCalls 300 [(0, "lv"), (50, "lvr")] = ["lvr"] :=
  ⟨by decide,
   (search_last_response_wins [] resLvr [resLv] 0 50 "lv" "lvr" (by decide)).1,
   (search_last_response_wins [] resLvr [resLv] 0 50 "lv" "lvr" (by decide)).2⟩

/-- C3 counterexample: the bulk load gives edge A→B the index id
`edge-0`, while the traversal derives `dynamic-edge-A-B`; the ids
never collapse, so displaying a traversal over the same pair inserts a
second visual edge instead of highlighting the existing one. -/
theorem traversal_edge_duplicates_bulk_edge :
    ((showTraversal exStateSel "downstream" (some exTraversal)).state.edgesDataset.map
        (fun e => (e.id, e.from_, e.to_)))
      = [("edge-0", "A", "B"), ("dynamic-edge-A-B", "A", "B")] ∧
    ((showTraversal exStateSel "downstream" (some exTraversal)).state.edgesDataset.filter
        (fun e => e.from_ == "A" && e.to_ == "B")).length = 2 := by decide

/-- C3 (amended): the synthetic id `dynamic-edge-source-target` dedupes
traversal edges against each other — under duplicate-free edge ids,
after a traversal application each traversal pair is present under its
synthetic id exactly once, and edge ids stay duplicate-free — but it
does not collapse onto the index-based id of a bulk-loaded edge with
the same (source, target) pair, which therefore stays alongside it. -/
theorem traversal_edges_dedupe_by_pair (s : AppState) (sel : String)
    (res : TraversalResult) (hnd : (edgeIds s).Nodup) :
    (edgeIds (showTraversalBody s sel res)).Nodup ∧
    ∀ e ∈ res.edges,
      (edgeIds (showTraversalBody s sel res)).count
        (dynamicEdgeId e.source e.target) = 1 := by
  unfold showTraversalBody
  dsimp only
  have hpre : edgeIds (res.nodes.foldl processTraversalNode
      (highlightNode (clearHighlights s) sel true)) = edgeIds s := by
    rw [edgeIds_foldl_processTraversalNode, edgeIds_highlightNode,
      edgeIds_clearHighlights]
  have hnd2 : (edgeIds (res.nodes.foldl processTraversalNode
      (highlightNode (clearHighlights s) sel true))).Nodup := by
    rw [hpre]; exact hnd
  refine ⟨(foldl_processTraversalEdge_ids res.edges _).2.1 hnd2, fun e he => ?_⟩
  exact List.count_eq_one_of_mem
    ((foldl_processTraversalEdge_ids res.edges _).2.1 hnd2)
    ((foldl_processTraversalEdge_ids res.edges _).2.2 e he)

/-- C3 witness: re-displaying the A→B traversal keeps exactly one
synthetic edge. -/
theorem traversal_edges_dedupe_by_pair_witness :
    (edgeIds exStateSel).Nodup ∧
    (edgeIds (showTraversalBody exStateSel "A" exTraversal)).count
      (dynamicEdgeId "A" "B") = 1 :=
  ⟨by decide,
   (traversal_edges_dedupe_by_pair exStateSel "A" exTraversal (by decide)).2
     exEdgeAB (by decide)⟩

/-- C4 counterexample: a result carrying a literal path source whose
label resolves to a loaded node (C) highlights that node too, so the
highlighted set is strictly larger than {target, upstream...,
downstream...}. -/
theorem apply_highlights_beyond_listed :
    ((nodesToHighlight exQueryPath).map (fun n => n.id)) = ["B", "A"] ∧
    "C" ∈ (highlightQueryPath exStateC exQueryPath).highlightedNodes := by decide

/-- C4 (amended): applying a query result first clears the prior
highlight; for a result without a path source the highlighted node set
is then exactly the ids of {target, upstream..., downstream...} (all
of which are present after the upserts; falsy ids are skipped), and
repeated application of the same result yields the same highlighted
node and edge sets.  A path source can only extend the set by
label-matched nodes. -/
theorem apply_exact_and_idempotent (s : AppState) (r : QueryResult)
    (hp : pathLabels r = []) :
    (∀ x, x ∈ (highlightQueryPath s r).highlightedNodes ↔
        ∃ n ∈ nodesToHighlight r, n.id = x ∧ x ≠ "") ∧
    (highlightQueryPath (highlightQueryPath s r) r).highlightedNodes
      = (highlightQueryPath s r).highlightedNodes ∧
    (highlightQueryPath (highlightQueryPath s r) r).highlightedEdges
      = (highlightQueryPath s r).highlightedEdges := by
  have h1 := highlightedSets_highlightQueryPath s r hp
  have h2 := highlightedSets_highlightQueryPath (highlightQueryPath s r) r hp
  refine ⟨fun x => ?_, ?_, ?_⟩
  · rw [h1.1, mem_queryHighlightIds]
    simp
  · rw [h1.1, h2.1]
  · rw [h1.2, h2.2, edgeTriples_highlightQueryPath]

/-- C4 witness: the spec scenario — apply target B with upstream [A]
on the A/B graph: highlighted nodes are exactly {B, A} and the single
A→B edge is highlighted. -/
theorem apply_exact_and_idempotent_witness :
    pathLabels exQuery = [] ∧
    ("A" ∈ (highlightQueryPath exState exQuery).highlightedNodes ↔
      ∃ n ∈ nodesToHighlight exQuery, n.id = "A" ∧ "A" ≠ "") ∧
    (highlightQueryPath exState exQuery).highlightedNodes = ["B", "A"] ∧
    (highlightQueryPath exState exQuery).highlightedEdges = ["edge-0"] :=
  ⟨by decide,
   (apply_exact_and_idempotent exState exQuery (by decide)).1 "A",
   by decide, by decide⟩

/-- C7: a normalized query shorter than 2 characters clears the
results and issues no network call; and over any keystroke burst whose
gaps all stay inside the 300 ms debounce window, exactly one network
call goes out — the one for the final query (when it meets the
minimum length). -/
theorem search_minlength_debounce :
    (∀ raw, (normalizeQuery raw).length < 2 →
      searchNodes raw = ⟨true, none⟩) ∧
    (∀ (ks : List (Nat × String)) (t : Nat) (q : String),
      gapsWithin 300 (ks ++ [(t, q)]) = true →
      2 ≤ (normalizeQuery q).length →
      issuedCalls 300 (ks ++ [(t, q)]) = [normalizeQuery q]) := by
  constructor
  · intro raw h
    unfold searchNodes
    dsimp only
    rw [if_pos h]
  · intro ks t q hb hlen
    unfold issuedCalls
    rw [firedCalls_burst 300 ks t q hb]
    simp [searchNodes, Nat.not_lt.mpr hlen]

/-- C7 witness: a length-1 query is dropped without a call, and 10
keystrokes inside one 300 ms window produce exactly one call, for the
final query. -/
theorem search_minlength_debounce_witness :
    ((normalizeQuery "l").length < 2 ∧ searchNodes "l" = ⟨true, none⟩) ∧
    (gapsWithin 300 ([(0, "l"), (30, "lv"), (60, "lvr"), (90, "lv"), (120, "lvr"),
        (150, "lv"), (180, "lvr"), (210, "lv"), (240, "lvr")] ++ [(270, "lvr")]) = true ∧
     issuedCalls 300 ([(0, "l"), (30, "lv"), (60, "lvr"), (90, "lv"), (120, "lvr"),
        (150, "lv"), (180, "lvr"), (210, "lv"), (240, "lvr")] ++ [(270, "lvr")])
       = [normalizeQuery "lvr"]) :=
  ⟨⟨by decide, search_minlength_debounce.1 "l" (by decide)⟩,
   ⟨by decide,
    search_minlength_debounce.2
      [(0, "l"), (30, "lv"), (60, "lvr"), (90, "lv"), (120, "lvr"),
        (150, "lv"), (180, "lvr"), (210, "lv"), (240, "lvr")] 270 "lvr"
      (by decide) (by decide)⟩⟩

/-- C8: inserting a node whose id already exists is a no-op that keeps
the existing record; dataset ids stay duplicate-free across query and
traversal applications; and a node referenced by a query result (with
a truthy id) appears in the store exactly once afterwards. -/
theorem upsert_collision_noop_unique :
    (∀ (s : AppState) (n : RawNode) (hl : Bool),
      n.id ∈ nodeIds s → addNodeToGraph s n hl = s) ∧
    (∀ (s : AppState) (r : QueryResult),
      (nodeIds s).Nodup → (nodeIds (highlightQueryPath s r)).Nodup) ∧
    (∀ (s : AppState) (sel : String) (res : TraversalResult),
      (nodeIds s).Nodup → (nodeIds (showTraversalBody s sel res)).Nodup) ∧
    (∀ (s : AppState) (r : QueryResult) (n : RawNode),
      (nodeIds s).Nodup → n ∈ nodesToHighlight r → n.id ≠ "" →
      (nodeIds (highlightQueryPath s r)).count n.id = 1) :=
  ⟨addNodeToGraph_of_mem,
   fun s r => (nodeIds_highlightQueryPath s r).2.1,
   nodeIds_showTraversalBody,
   fun s r n hnd hmem hne => List.count_eq_one_of_mem
     ((nodeIds_highlightQueryPath s r).2.1 hnd)
     ((nodeIds_highlightQueryPath s r).2.2 n hmem hne)⟩

/-- C8 witness: applying a result that references node C — absent from
the initial load — leaves C in the store exactly once. -/
theorem upsert_collision_noop_unique_witness :
    (nodeIds exState).Nodup ∧ exNodeC ∈ nodesToHighlight exQueryC ∧
    exNodeC.id ≠ "" ∧
    (nodeIds (highlightQueryPath exState exQueryC)).count "C" = 1 :=
  ⟨by decide, by decide, by decide,
   upsert_collision_noop_unique.2.2.2 exState exQueryC exNodeC
     (by decide) (by decide) (by decide)⟩

/-- C9 counterexample: a tier-0 FIELD node renders at size
12 + 4·1.5 = 18, exactly the CONCEPT size, so a concept's baseline
size is not larger than that of every field. -/
theorem concept_size_not_above_tier0_field :
    getNodeSize ⟨"f0", none, some "FIELD", some 0⟩
      = getNodeSize ⟨"c0", none, some "CONCEPT", none⟩ ∧
    ¬ (getNodeSize ⟨"f0", none, some "FIELD", some 0⟩
        < getNodeSize ⟨"c0", none, some "CONCEPT", none⟩) := by
  have hm : (max 0 (4 - (0 : Int)) : Int) = 4 := by omega
  have hf : getNodeSize ⟨"f0", none, some "FIELD", some 0⟩ = 18 := by
    rw [getNodeSize_of_field _ 0 rfl rfl, hm]
    norm_num
  have hc : getNodeSize ⟨"c0", none, some "CONCEPT", none⟩ = 18 :=
    getNodeSize_of_concept _ rfl
  rw [hf, hc]
  exact ⟨rfl, lt_irrefl 18⟩

/-- C9 (amended): for fields with tier ≥ 0 the concept size (18) is an
upper bound, strict from tier 1 on (a tier-0 field ties at 18); among
fields the size is non-increasing as the tier increases, with the
fixed floor 12. -/
theorem nodeSize_category_tier_ordering :
    (∀ (f c : RawNode) (t : Int), f.ntype = some "FIELD" → f.tier = some t →
      0 ≤ t → c.ntype = some "CONCEPT" →
      getNodeSize f ≤ getNodeSize c ∧ (1 ≤ t → getNodeSize f < getNodeSize c)) ∧
    (∀ (f1 f2 : RawNode) (t1 t2 : Int), f1.ntype = some "FIELD" →
      f2.ntype = some "FIELD" → f1.tier = some t1 → f2.tier = some t2 →
      t1 ≤ t2 → getNodeSize f2 ≤ getNodeSize f1) ∧
    (∀ (f : RawNode) (t : Int), f.ntype = some "FIELD" → f.tier = some t →
      12 ≤ getNodeSize f) := by
  refine ⟨fun f c t hf ht ht0 hc => ?_, fun f1 f2 t1 t2 hf1 hf2 ht1 ht2 hle => ?_,
    fun f t hf ht => ?_⟩
  · rw [getNodeSize_of_field f t hf ht, getNodeSize_of_concept c hc]
    constructor
    · have h1 : (max 0 (4 - t) : Int) ≤ 4 := by omega
      have h1q : ((max 0 (4 - t) : Int) : ℚ) ≤ 4 := by exact_mod_cast h1
      linarith
    · intro ht1
      have h1 : (max 0 (4 - t) : Int) ≤ 3 := by omega
      have h1q : ((max 0 (4 - t) : Int) : ℚ) ≤ 3 := by exact_mod_cast h1
      linarith
  · rw [getNodeSize_of_field f1 t1 hf1 ht1, getNodeSize_of_field f2 t2 hf2 ht2]
    have h1 : (max 0 (4 - t2) : Int) ≤ max 0 (4 - t1) := by omega
    have h1q : ((max 0 (4 - t2) : Int) : ℚ) ≤ ((max 0 (4 - t1) : Int) : ℚ) := by
      exact_mod_cast h1
    linarith
  · rw [getNodeSize_of_field f t hf ht]
    have h2 : (0 : Int) ≤ max 0 (4 - t) := le_max_left _ _
    have h2q : (0 : ℚ) ≤ ((max 0 (4 - t) : Int) : ℚ) := by exact_mod_cast h2
    linarith

/-- C9 witness: the tier-3 field B is strictly smaller than a concept,
and tier 1 renders no smaller than tier 3, which stays at or above the
floor. -/
theorem nodeSize_category_tier_ordering_witness :
    (exNodeB.ntype = some "FIELD" ∧ exNodeB.tier = some 3 ∧ (0 : Int) ≤ 3 ∧
      (1 : Int) ≤ 3) ∧
    getNodeSize exNodeB < getNodeSize ⟨"c0", none, some "CONCEPT", none⟩ ∧
    getNodeSize exNodeB ≤ getNodeSize exNodeA ∧
    12 ≤ getNodeSize exNodeB :=
  ⟨⟨rfl, rfl, by decide, by decide⟩,
   (nodeSize_category_tier_ordering.1 exNodeB ⟨"c0", none, some "CONCEPT", none⟩ 3
     rfl rfl (by decide) rfl).2 (by decide),
   nodeSize_category_tier_ordering.2.1 exNodeA exNodeB 1 3 rfl rfl rfl rfl (by decide),
   nodeSize_category_tier_ordering.2.2 exNodeB 3 rfl rfl⟩

end GraphRAG

